import Mathlib

/-!
Shallow embedding of the sgfinfo SGF parser (Go sources `parse.go` and the
lexer file) and proofs about it.

Modelling conventions:
* The input string is a `List Char`; positions count characters.  The Go code
  counts bytes of UTF-8, which coincides with character counts for ASCII
  input (all concrete inputs below are ASCII).
* The Go lexer walks an index `l.pos` through a fixed string and remembers
  `l.start` (the position after the last `emit`/`ignore`).  Here the state is
  kept as `rem` (the characters from `l.pos` on), `done` (the consumed
  characters, most recent first, so `l.pos = done.length`) and `acc` (the
  characters consumed since the last `emit`/`ignore`, most recent first, so
  `l.start = done.length - acc.length`).
* Go's `unicode.IsLetter` is modelled by `Char.isAlpha` and
  `strings.ToUpper` by mapping `Char.toUpper`; both agree with Go on ASCII,
  which is all the proofs rely on.  `unicode.IsPrint` is modelled exactly on
  the ASCII range and approximately above it.
* Go's `%q` escaping of ordinary printable characters is the identity; the
  model quotes without escaping.
* A Go runtime panic (slice bounds out of range in `quoteContext`, or a nil
  pointer dereference in the tree builder) is modelled by a `panicked` flag:
  no further observable output is produced once it is set.
-/

namespace SGF

/-- A (name, raw value) pair, mirroring Go `type Property struct`. -/
structure Property where
  name : String
  value : String
deriving DecidableEq, Repr

/-- A game-tree node, mirroring Go `type Node struct`: the move property
(`point`), the other properties in order, the variation children in order and
the optional next node of the sequence. -/
inductive Node : Type where
  | mk (point : Property) (properties : List Property) (variations : List Node)
       (next : Option Node) : Node
deriving Repr

def Node.point : Node → Property
  | .mk p _ _ _ => p

def Node.properties : Node → List Property
  | .mk _ pr _ _ => pr

def Node.variations : Node → List Node
  | .mk _ _ vs _ => vs

def Node.next : Node → Option Node
  | .mk _ _ _ nx => nx

/-- Go `new(Node)`: the zero value (empty move property, no properties, no
variations, nil next). -/
def emptyNode : Node := .mk ⟨"", ""⟩ [] [] none

/-- Go `node.AddProperty`: a property named exactly "B" or "W" becomes the
move property (`point`), anything else is appended to `properties`. -/
def Node.addProperty (n : Node) (prop : Property) : Node :=
  match n with
  | .mk pt pr vs nx =>
    if prop.name = "B" || prop.name = "W" then .mk prop pr vs nx
    else .mk pt (pr ++ [prop]) vs nx

/-- Go `n.NewVariation()`: append a fresh empty node to the variation list. -/
def Node.addVariation (n : Node) : Node :=
  match n with
  | .mk pt pr vs nx => .mk pt pr (vs ++ [emptyNode]) nx

/-- Go `node.NewNode()`: set `next` to a fresh empty node (overwriting any
previous `next`, as the Go assignment does). -/
def Node.setNext (n : Node) : Node :=
  match n with
  | .mk pt pr vs _ => .mk pt pr vs (some emptyNode)

/-- A step from a node to one of the nodes it owns: its `next` node or its
`i`-th variation child.  A list of steps is the address of a node in the
tree, playing the role of a Go `*Node` pointer. -/
inductive Step : Type where
  | nextS : Step
  | varS (i : Nat) : Step
deriving DecidableEq, Repr

def listModify : List Node → Nat → (Node → Node) → List Node
  | [], _, _ => []
  | x :: xs, 0, f => f x :: xs
  | x :: xs, i+1, f => x :: listModify xs i f

/-- Write through a pointer: rewrite the node at address `p` with `f`.
A dangling address leaves the tree unchanged (never happens in real runs). -/
def Node.setAt : Node → List Step → (Node → Node) → Node
  | n, [], f => f n
  | .mk pt pr vs nx, .nextS :: rest, f =>
      .mk pt pr vs (nx.map (fun m => m.setAt rest f))
  | .mk pt pr vs nx, .varS i :: rest, f =>
      .mk pt pr (listModify vs i (fun m => m.setAt rest f)) nx

/-- Read through a pointer: the node at address `p`, if it exists. -/
def Node.getAt : Node → List Step → Option Node
  | n, [] => some n
  | .mk _ _ _ nx, .nextS :: rest => nx.bind (fun m => m.getAt rest)
  | .mk _ _ vs _, .varS i :: rest => (vs.get? i).bind (fun m => m.getAt rest)

/-! ## The tokenizer (Go lexer file) -/

/-- Go `itemType`.  `leftBracket`/`rightBracket` exist in the Go enum but are
never emitted. -/
inductive ItemType : Type where
  | eof | error | leftParen | rightParen | semiColon
  | leftBracket | rightBracket | propertyName | propertyValue
deriving DecidableEq, Repr

/-- Go `item`: a token with its type, the byte position of its start
(`l.start` at emission time) and its text payload. -/
structure Item where
  typ : ItemType
  pos : Nat
  val : String
deriving DecidableEq, Repr

/-- Go `isSpace`. -/
def isSpaceCh (c : Char) : Bool := c = ' ' || c = '\t'

/-- Go `isEndOfLine`. -/
def isEndOfLineCh (c : Char) : Bool := c = '\r' || c = '\n'

/-- Go `isWhiteSpace`. -/
def isWhiteSpaceCh (c : Char) : Bool := isSpaceCh c || isEndOfLineCh c

/-- Go `isAlpha` (`unicode.IsLetter`); restricted to ASCII letters here. -/
def isAlphaCh (c : Char) : Bool := c.isAlpha

/-- Go `unicode.IsPrint`: exact on ASCII (0x20–0x7e printable), approximate
above (the claims below only exercise ASCII). -/
def isPrintCh (c : Char) : Bool :=
  (0x20 ≤ c.toNat && c.toNat ≤ 0x7e) || 0xa0 ≤ c.toNat

/-- Go `isPropertyValueChar`. -/
def isPropertyValueChar (c : Char) : Bool := isPrintCh c && c ≠ ']'

/-- Go `peek` result classified: `isAlpha` of the next rune, where at end of
input `next` returns the `eof` rune, which is not a letter. -/
def isAlphaP : Option Char → Bool
  | some c => isAlphaCh c
  | none => false

/-- Go `strip_newlines`: every `\n` and `\r` is removed before scanning. -/
def strip_newlines (s : List Char) : List Char :=
  s.filter (fun c => c ≠ '\n' && c ≠ '\r')

/-- Go `strings.ToUpper` on the character list (exact for ASCII). -/
def strToUpper (l : List Char) : List Char := l.map Char.toUpper

/-- `strings.ToUpper` on strings. -/
def strUpper (s : String) : String := (strToUpper s.data).asString

/-- Go `acceptAlphaRun`: split off the maximal alphabetic run. -/
def spanAlpha : List Char → List Char × List Char
  | [] => ([], [])
  | c :: rest =>
    if isAlphaCh c then
      let p := spanAlpha rest
      (c :: p.1, p.2)
    else ([], c :: rest)

/-- Go `acceptPropertyValueRun`: split off the maximal run of value chars. -/
def spanValue : List Char → List Char × List Char
  | [] => ([], [])
  | c :: rest =>
    if isPropertyValueChar c then
      let p := spanValue rest
      (c :: p.1, p.2)
    else ([], c :: rest)

/-- The whitespace-skipping loop of `lexLeftBracket`. -/
def spanWhite : List Char → List Char × List Char
  | [] => ([], [])
  | c :: rest =>
    if isWhiteSpaceCh c then
      let p := spanWhite rest
      (c :: p.1, p.2)
    else ([], c :: rest)

theorem spanAlpha_snd_le (l : List Char) : (spanAlpha l).2.length ≤ l.length := by
  induction l with
  | nil => simp [spanAlpha]
  | cons c rest ih =>
    simp only [spanAlpha]
    split
    · simpa using Nat.le_succ_of_le ih
    · simp

theorem spanValue_snd_le (l : List Char) : (spanValue l).2.length ≤ l.length := by
  induction l with
  | nil => simp [spanValue]
  | cons c rest ih =>
    simp only [spanValue]
    split
    · simpa using Nat.le_succ_of_le ih
    · simp

theorem spanWhite_snd_le (l : List Char) : (spanWhite l).2.length ≤ l.length := by
  induction l with
  | nil => simp [spanWhite]
  | cons c rest ih =>
    simp only [spanWhite]
    split
    · simpa using Nat.le_succ_of_le ih
    · simp

theorem lex_le_rank {a b x y : Nat} (h1 : a ≤ b) (h2 : x < y) :
    Prod.Lex (fun n m : Nat => n < m) (fun n m : Nat => n < m) (a, x) (b, y) := by
  rcases Nat.eq_or_lt_of_le h1 with he | hl
  · subst he
    exact Prod.Lex.right _ h2
  · exact Prod.Lex.left _ _ hl

/-- Go `emit`: the item starts at `l.start = done.length - acc.length` and its
payload is the text consumed since then. -/
def mkItem (t : ItemType) (done acc : List Char) : Item :=
  ⟨t, done.length - acc.length, (acc.reverse).asString⟩

/-- Go `quoteContext`.  `start` is `pos - 6` clamped to 0; `end` is `pos + 6`,
clamped to `len - 1` (sic) when it reaches `len`.  When `pos = len` (i.e. the
remaining input is empty) the Go slice `input[pos:end]` has `end < pos` and
the program panics: that case yields `none`. -/
def quoteContext (done rem : List Char) : Option String :=
  match rem with
  | [] => none
  | _ =>
    some (((done.take 6).reverse ++
      '|' :: (if rem.length ≤ 6 then rem.take (rem.length - 1) else rem.take 6)).asString)

/-- Go `%q` on a string, with escaping of special characters elided. -/
def quoteString (s : String) : String := "\"" ++ s ++ "\""

/-- Go `%q` on a rune; at end of input the rune is `eof = -1`, which
`strconv.QuoteRune` renders as a replacement character. -/
def quoteRune : Option Char → String
  | some c => "'" ++ String.singleton c ++ "'"
  | none => "'�'"

/-- Go `QuoteErrorContext`: message, current position, quoted context window.
`none` when `quoteContext` panics. -/
def quoteErrorContext (message : String) (done rem : List Char) : Option String :=
  (quoteContext done rem).map
    (fun ctx => message ++ ", position " ++ toString done.length ++ ", " ++ quoteString ctx)

/-- Emit the error item produced by `errorf(QuoteErrorContext ...)`, or record
the panic inside `quoteContext`.  At every call site `l.start = l.pos`, so the
item position is `done.length`. -/
def errCtxItems (message : String) (done rem : List Char) : List Item × Bool :=
  match quoteErrorContext message done rem with
  | some msg => ([⟨.error, done.length, msg⟩], false)
  | none => ([], true)

/-- The plain `errorf` message of the missing-right-bracket error. -/
def rbMsg (pos : Nat) : String :=
  "right bracket ']' expected here (position: " ++ toString pos ++ ")"

/-- The plain `errorf` message of the bad-dispatch error after a value. -/
def pnpMsg (pos : Nat) (found : Option Char) : String :=
  "property or node or parenthesis expected here (position: " ++ toString pos ++
    "). Found: " ++ quoteRune found

def consItem (it : Item) : List Item × Bool → List Item × Bool
  | (l, p) => (it :: l, p)

/-- The state functions of the Go lexer. -/
inductive LexFn : Type where
  | lexBegin | lexLeftParen | lexRightParen | lexSemiColon
  | lexPropertyName | lexLeftBracket
deriving DecidableEq, Repr

/-- Rank used as tie-breaker in the termination measure: `lexBegin` can pass
to `lexLeftParen` and `lexPropertyName` to `lexLeftBracket` without consuming
input; every other transition consumes at least one character. -/
def lexRank : LexFn → Nat
  | .lexBegin => 2
  | .lexPropertyName => 1
  | _ => 0

/-- Go `run`: execute the lexer state machine, collecting the emitted items.
The boolean is the panic flag (see `quoteContext`).  The cases marked
"unreachable" can only be entered with the stated character present; they are
total here with a panic result, matching the Go out-of-range slice. -/
def lexRun : LexFn → List Char → List Char → List Char → List Item × Bool
  | .lexBegin, [], done, acc => ([mkItem .eof done acc], false)
  | .lexBegin, c :: rest, done, acc =>
    if c = '(' then lexRun .lexLeftParen (c :: rest) done acc
    else lexRun .lexBegin rest (c :: done) (c :: acc)
  | .lexLeftParen, [], _, _ => ([], true)
  | .lexLeftParen, c :: rest, done, acc =>
    let done1 := c :: done
    let it := mkItem .leftParen done1 (c :: acc)
    if rest.head? = some ';' then consItem it (lexRun .lexSemiColon rest done1 [])
    else consItem it (errCtxItems "semi-colon expected here" done1 rest)
  | .lexRightParen, [], _, _ => ([], true)
  | .lexRightParen, c :: rest, done, acc =>
    let done1 := c :: done
    let it := mkItem .rightParen done1 (c :: acc)
    if rest.head? = some '(' then consItem it (lexRun .lexLeftParen rest done1 [])
    else if isAlphaP rest.head? then consItem it (lexRun .lexPropertyName rest done1 [])
    else if rest.head? = some ')' then consItem it (lexRun .lexRightParen rest done1 [])
    else if rest.head? = some ';' then consItem it (lexRun .lexSemiColon rest done1 [])
    else ([it, mkItem .eof done1 []], false)
  | .lexSemiColon, [], _, _ => ([], true)
  | .lexSemiColon, c :: rest, done, acc =>
    let done1 := c :: done
    let it := mkItem .semiColon done1 (c :: acc)
    if rest.head? = some ';' then
      if isAlphaP rest.tail.head? then
        consItem it (lexRun .lexPropertyName rest.tail (';' :: done1) [])
      else consItem it (errCtxItems "property expected here" (';' :: done1) rest.tail)
    else
      if isAlphaP rest.head? then consItem it (lexRun .lexPropertyName rest done1 [])
      else consItem it (errCtxItems "property expected here" done1 rest)
  | .lexPropertyName, rem, done, acc =>
    let nm := (spanAlpha rem).1
    let rest := (spanAlpha rem).2
    let done1 := nm.reverse ++ done
    let acc1 := nm.reverse ++ acc
    let it : Item :=
      ⟨.propertyName, done1.length - acc1.length, (strToUpper acc1.reverse).asString⟩
    if rest.head? = some '[' then consItem it (lexRun .lexLeftBracket rest done1 [])
    else consItem it (errCtxItems "left bracket '[' expected here" done1 rest)
  | .lexLeftBracket, [], done, _ =>
    ([⟨.propertyValue, done.length, ""⟩, ⟨.error, done.length, rbMsg done.length⟩], false)
  | .lexLeftBracket, c :: rest, done, _ =>
    let done1 := c :: done
    let v := (spanValue rest).1
    let rest2 := (spanValue rest).2
    let done2 := v.reverse ++ done1
    let it : Item := ⟨.propertyValue, done1.length, v.asString⟩
    if rest2.head? = some ']' then
      let rest3 := rest2.tail
      let done3 := ']' :: done2
      let ws := (spanWhite rest3).1
      let rest4 := (spanWhite rest3).2
      let done4 := ws.reverse ++ done3
      if rest4.head? = some '[' then consItem it (lexRun .lexLeftBracket rest4 done4 ws.reverse)
      else if rest4.head? = some ';' then consItem it (lexRun .lexSemiColon rest4 done4 ws.reverse)
      else if rest4.head? = some '(' then consItem it (lexRun .lexLeftParen rest4 done4 ws.reverse)
      else if rest4.head? = some ')' then consItem it (lexRun .lexRightParen rest4 done4 ws.reverse)
      else if isAlphaP rest4.head? then consItem it (lexRun .lexPropertyName rest4 done4 ws.reverse)
      else (it :: [⟨.error, done3.length, pnpMsg done4.length rest4.head?⟩], false)
    else
      (it :: [⟨.error, done2.length, rbMsg done2.length⟩], false)
termination_by fn rem _ _ => (rem.length, lexRank fn)
decreasing_by
  all_goals simp_wf
  all_goals
    first
    | (apply lex_le_rank (Nat.le_refl _) (by decide))
    | (apply lex_le_rank (spanAlpha_snd_le rem) (by decide))
    | (apply Prod.Lex.left; omega)
    | (apply Prod.Lex.left
       have h3 : rest.tail.length ≤ rest.length := by cases rest <;> simp
       omega)
    | (apply Prod.Lex.left
       have h1 := spanValue_snd_le rest
       have h2 : (spanValue rest).2.tail.length ≤ (spanValue rest).2.length := by
         cases (spanValue rest).2 <;> simp
       have h3 := spanWhite_snd_le (spanValue rest).2.tail
       omega)

/-- Go `lex`: strip newlines, then run the machine from `lexBegin`. -/
def lexItems (s : String) : List Item × Bool :=
  lexRun .lexBegin (strip_newlines s.data) [] []

/-! ## The tree builder (Go `parse.go`) -/

/-- Go `type GameInfo map[string]string`, as an association list without
duplicate keys: `addProperty` updates in place or appends. -/
def GameInfo : Type := List (String × String)

instance : DecidableEq GameInfo :=
  inferInstanceAs (DecidableEq (List (String × String)))

instance : Repr GameInfo :=
  inferInstanceAs (Repr (List (String × String)))

def giUpdate : List (String × String) → String → String → List (String × String)
  | [], k, v => [(k, v)]
  | (k', v') :: rest, k, v =>
    if k' = k then (k, v) :: rest else (k', v') :: giUpdate rest k v

/-- Go `GameInfo.AddProperty`: `gi[strings.ToUpper(name)] = value`. -/
def GameInfo.addProperty (gi : GameInfo) (prop : Property) : GameInfo :=
  giUpdate gi (strUpper prop.name) prop.value

/-- Go `GameInfo.GetProperty` (the `ok` result becomes `Option`). -/
def GameInfo.getProperty (gi : GameInfo) (name : String) : Option String :=
  ((gi : List (String × String)).find? (fun p => p.1 = strUpper name)).map (fun p => p.2)

/-- Go `type SGFGame struct`: header map, optional tree root, error list
(error values reduced to their messages). -/
structure SGFGame where
  gameInfo : GameInfo
  gameTree : Option Node
  errors : List String

/-- The local state of Go `Parse`: the fields of `SGFGame` being filled in,
the `currentNode` pointer (an address into `gameTree`; `none` is the nil
pointer), the pending property buffer `prop`, the two phase flags, and the
variation stack.

Modelled from the spec: the external LIFO `Stack` utility (push/pop, with pop
returning nil on an empty stack) is not part of the sources and is modelled,
following §6 of the spec, as a Lean list of saved `currentNode` pointers.

`panicked` records a nil-pointer dereference (`currentNode.AddProperty` with
`currentNode = nil`), which in Go would abort the parse. -/
structure BState where
  gameInfo : GameInfo
  gameTree : Option Node
  errors : List String
  cur : Option (List Step)
  prop : Property
  parsingSetup : Bool
  parsingGame : Bool
  stack : List (Option (List Step))
  panicked : Bool

def initB : BState :=
  ⟨[], none, [], none, ⟨"", ""⟩, false, false, [], false⟩

/-- One iteration of the `switch` in Go `Parse`, for the token kinds that do
not leave the loop (`itemError` and `itemEOF` are handled by `runBuild`). -/
def bstep (st : BState) (i : Item) : BState :=
  match i.typ with
  | .leftParen =>
    if st.parsingGame then
      match st.gameTree, st.cur with
      | some root, some p =>
        match root.getAt p with
        | some nd =>
          { st with stack := st.cur :: st.stack,
                    gameTree := some (root.setAt p Node.addVariation),
                    cur := some (p ++ [Step.varS nd.variations.length]) }
        | none => { st with panicked := true }
      | _, _ => { st with panicked := true }
    else st
  | .rightParen =>
    if st.parsingGame then
      match st.stack with
      | [] => st
      | h :: t =>
        match h with
        | some p => { st with stack := t, cur := some p }
        | none => { st with stack := t }
    else st
  | .semiColon =>
    if !st.parsingSetup && !st.parsingGame then
      { st with parsingSetup := true }
    else if !st.parsingGame then
      { st with parsingSetup := false, parsingGame := true,
                gameTree := some emptyNode, cur := some [] }
    else
      match st.gameTree, st.cur with
      | some root, some p =>
        { st with gameTree := some (root.setAt p Node.setNext),
                  cur := some (p ++ [Step.nextS]) }
      | _, _ => { st with panicked := true }
  | .propertyName => { st with prop := ⟨i.val, ""⟩ }
  | .propertyValue =>
    let prop : Property := ⟨st.prop.name, i.val⟩
    if st.parsingSetup then
      { st with prop := prop, gameInfo := st.gameInfo.addProperty prop }
    else
      match st.gameTree, st.cur with
      | some root, some p =>
        { st with prop := prop, gameTree := some (root.setAt p (fun n => n.addProperty prop)) }
      | _, _ => { st with prop := prop, panicked := true }
  | _ => st

/-- The `for`/`break Loop` of Go `Parse`: consume items until `itemError`
(record the message and stop) or `itemEOF` (stop).  A Go panic stops the
parse as well. -/
def runBuild : List Item → BState → BState
  | [], st => st
  | i :: rest, st =>
    match i.typ with
    | .error => { st with errors := st.errors ++ [i.val] }
    | .eof => st
    | _ =>
      let st1 := bstep st i
      if st1.panicked then st1 else runBuild rest st1

/-- Go `sgf.Parse(input)` on a fresh `SGFGame`: lex the input and run the
builder over the token stream. -/
def Parse (input : String) : SGFGame :=
  let st := runBuild (lexItems input).1 initB
  ⟨st.gameInfo, st.gameTree, st.errors⟩

/-- Whether parsing `input` hits a Go runtime panic (in the lexer's
`quoteContext` or on a nil `currentNode`). -/
def ParsePanics (input : String) : Bool :=
  (lexItems input).2 || (runBuild (lexItems input).1 initB).panicked

/-! ## Derived queries (Go `NodeCount`, `NthNode`) -/

/-- The main line: the chain of nodes reached from the root by `next` links
only (variations are never entered). -/
def mainLine : Option Node → List Node
  | none => []
  | some (.mk pt pr vs nx) => .mk pt pr vs nx :: mainLine nx

/-- The counting loop of Go `NodeCount`. -/
def nodeCountFrom : Option Node → Nat
  | none => 0
  | some (.mk _ _ _ nx) => 1 + nodeCountFrom nx

/-- Go `sgf.NodeCount()`. -/
def SGFGame.NodeCount (sgf : SGFGame) : Nat := nodeCountFrom sgf.gameTree

/-- The stepping loop of Go `NthNode`: follow `next` `k` times. -/
def nthFrom : Option Node → Nat → Option Node
  | cur, 0 => cur
  | cur, k+1 => nthFrom (cur.bind Node.next) k

/-- Go `sgf.NthNode(n)`: the `(node, err)` pair. -/
def SGFGame.NthNode (sgf : SGFGame) (n : Int) : Option Node × Option String :=
  if n < 1 then (none, some "n less than 1")
  else if n > (sgf.NodeCount : Int) then
    (none, some ("n greater than node count (" ++ toString sgf.NodeCount ++ ")"))
  else (nthFrom sgf.gameTree (n - 1).toNat, none)

/-! ## Observers used to state the claims -/

mutual

/-- Structural (deep) equality of nodes. -/
def Node.beq : Node → Node → Bool
  | .mk pt1 pr1 vs1 nx1, .mk pt2 pr2 vs2 nx2 =>
    decide (pt1 = pt2) && decide (pr1 = pr2) && Node.beqList vs1 vs2 && Node.beqOpt nx1 nx2

def Node.beqList : List Node → List Node → Bool
  | [], [] => true
  | a :: as, b :: bs => Node.beq a b && Node.beqList as bs
  | _, _ => false

def Node.beqOpt : Option Node → Option Node → Bool
  | none, none => true
  | some a, some b => Node.beq a b
  | _, _ => false

end

/-- Structural (deep) equality of game records. -/
def sgfEq (g1 g2 : SGFGame) : Bool :=
  decide (g1.gameInfo = g2.gameInfo) && Node.beqOpt g1.gameTree g2.gameTree &&
    decide (g1.errors = g2.errors)

/-- Whether a node has exactly two variation children whose move properties
are W=bb and W=cc, in that order (the configuration required by C2). -/
def c2VarHit (n : Node) : Bool :=
  match n.variations with
  | [v1, v2] => decide (v1.point = (⟨"W", "bb"⟩ : Property)) &&
                decide (v2.point = (⟨"W", "cc"⟩ : Property))
  | _ => false

mutual

/-- Whether any node of the tree satisfies `c2VarHit`. -/
def c2Any : Node → Bool
  | .mk pt pr vs nx =>
    c2VarHit (.mk pt pr vs nx) || c2AnyList vs ||
      (match nx with | some m => c2Any m | none => false)

def c2AnyList : List Node → Bool
  | [] => false
  | v :: vs => c2Any v || c2AnyList vs

end

/-- Whether `pat` occurs as a contiguous segment of `hay`. -/
def containsSeg (hay pat : List Char) : Bool :=
  (List.range (hay.length + 1)).any (fun i => decide ((hay.drop i).take pat.length = pat))

/-- What the header map looks like if every completed property of a token
stream is folded into it (tracking the pending property name, stopping at the
first `error`/`eof` item exactly as the builder loop does). -/
def headerRun : String → GameInfo → List Item → GameInfo
  | _, gi, [] => gi
  | nm, gi, i :: rest =>
    match i.typ with
    | .error => gi
    | .eof => gi
    | .propertyName => headerRun i.val gi rest
    | .propertyValue => headerRun nm (GameInfo.addProperty gi ⟨nm, i.val⟩) rest
    | _ => headerRun nm gi rest

/-- No `propertyValue` item occurs before the first `semiColon` item. -/
def noPVFirst (items : List Item) : Bool :=
  (items.takeWhile (fun i => !decide (i.typ = .semiColon))).all
    (fun i => !decide (i.typ = .propertyValue))

/-- The builder-step fold without the early exits: what `runBuild` computes
on a stretch of items that contains no `error`/`eof` item and causes no
panic. -/
def stepFold (items : List Item) (st : BState) : BState :=
  items.foldl bstep st

/-! ## Helper lemmas -/

theorem strToUpper_self : ∀ l : List Char, (∀ c ∈ l, c.toUpper = c) → strToUpper l = l
  | [], _ => rfl
  | c :: rest, h => by
    have h1 := h c (List.mem_cons_self c rest)
    have h2 := strToUpper_self rest (fun d hd => h d (List.mem_cons_of_mem c hd))
    simp only [strToUpper, List.map_cons] at h2 ⊢
    rw [h1, h2]

theorem spanAlpha_all : ∀ (key rest : List Char), (∀ c ∈ key, isAlphaCh c = true) →
    isAlphaP rest.head? = false → spanAlpha (key ++ rest) = (key, rest)
  | [], rest, _, h2 => by
    cases rest with
    | nil => rfl
    | cons c r =>
      simp only [isAlphaP, List.head?] at h2
      simp [spanAlpha, h2]
  | k :: key, rest, h1, h2 => by
    have ha := h1 k (List.mem_cons_self k key)
    have ih := spanAlpha_all key rest (fun d hd => h1 d (List.mem_cons_of_mem k hd)) h2
    simp [spanAlpha, ha, ih]

theorem spanValue_all : ∀ (v rest : List Char), (∀ c ∈ v, isPropertyValueChar c = true) →
    (∀ c, rest.head? = some c → isPropertyValueChar c = false) → spanValue (v ++ rest) = (v, rest)
  | [], rest, _, h2 => by
    cases rest with
    | nil => rfl
    | cons c r =>
      have := h2 c rfl
      simp [spanValue, this]
  | k :: v, rest, h1, h2 => by
    have ha := h1 k (List.mem_cons_self k v)
    have ih := spanValue_all v rest (fun d hd => h1 d (List.mem_cons_of_mem k hd)) h2
    simp [spanValue, ha, ih]

theorem spanWhite_head (rest : List Char) (c : Char) (h1 : rest.head? = some c)
    (h2 : isWhiteSpaceCh c = false) : spanWhite rest = ([], rest) := by
  cases rest with
  | nil => simp at h1
  | cons d r =>
    simp only [List.head?] at h1
    cases h1
    simp [spanWhite, h2]

theorem listModify_get? : ∀ (vs : List Node) (i : Nat) (f : Node → Node),
    (listModify vs i f).get? i = (vs.get? i).map f
  | [], i, _ => by cases i <;> simp [listModify]
  | x :: xs, 0, f => by simp [listModify]
  | x :: xs, i+1, f => by
    simp only [listModify, List.get?]
    exact listModify_get? xs i f

theorem getAt_setAt_self : ∀ (p : List Step) (root nd : Node) (f : Node → Node),
    root.getAt p = some nd → (root.setAt p f).getAt p = some (f nd)
  | [], root, nd, f, h => by
    simp only [Node.getAt] at h
    cases h
    simp [Node.setAt, Node.getAt]
  | .nextS :: rest, .mk pt pr vs nx, nd, f, h => by
    cases nx with
    | none => simp [Node.getAt] at h
    | some m =>
      simp only [Node.getAt, Option.bind] at h
      simp only [Node.setAt, Node.getAt, Option.map, Option.bind]
      exact getAt_setAt_self rest m nd f h
  | .varS i :: rest, .mk pt pr vs nx, nd, f, h => by
    simp only [Node.getAt] at h
    rcases hm : vs.get? i with - | m
    · rw [hm] at h; simp at h
    · rw [hm] at h
      simp only [Option.bind] at h
      simp only [Node.setAt, Node.getAt, listModify_get?, hm, Option.map, Option.bind]
      exact getAt_setAt_self rest m nd f h

theorem getAt_append : ∀ (p q : List Step) (root : Node),
    root.getAt (p ++ q) = (root.getAt p).bind (fun n => n.getAt q)
  | [], q, root => by simp [Node.getAt]
  | .nextS :: rest, q, .mk pt pr vs nx => by
    cases nx with
    | none => simp [Node.getAt]
    | some m => simpa [Node.getAt] using getAt_append rest q m
  | .varS i :: rest, q, .mk pt pr vs nx => by
    show (vs.get? i).bind (fun m => m.getAt (rest ++ q)) =
      ((vs.get? i).bind (fun m => m.getAt rest)).bind (fun n => n.getAt q)
    rcases hm : vs.get? i with - | m
    · rfl
    · exact getAt_append rest q m

theorem nodeCountFrom_eq_len : ∀ t : Option Node, nodeCountFrom t = (mainLine t).length
  | none => by simp [nodeCountFrom, mainLine]
  | some (.mk pt pr vs nx) => by
    simp only [nodeCountFrom, mainLine, List.length_cons]
    rw [nodeCountFrom_eq_len nx]
    omega

theorem nthFrom_eq_get? : ∀ (k : Nat) (t : Option Node), nthFrom t k = (mainLine t).get? k
  | 0, none => by simp [nthFrom, mainLine]
  | 0, some (.mk pt pr vs nx) => by simp [nthFrom, mainLine]
  | k+1, none => by
    simp only [nthFrom, Option.bind, mainLine]
    rw [nthFrom_eq_get? k none]
    simp [mainLine]
  | k+1, some (.mk pt pr vs nx) => by
    simp only [nthFrom, Option.bind, Node.next, mainLine, List.get?]
    exact nthFrom_eq_get? k nx

mutual

theorem Node.beq_refl : (n : Node) → Node.beq n n = true
  | .mk pt pr vs nx => by
    unfold Node.beq
    simp [Node.beqList_refl vs, Node.beqOpt_refl nx]

theorem Node.beqList_refl : (l : List Node) → Node.beqList l l = true
  | [] => by unfold Node.beqList; rfl
  | a :: as => by
    unfold Node.beqList
    simp [Node.beq_refl a, Node.beqList_refl as]

theorem Node.beqOpt_refl : (o : Option Node) → Node.beqOpt o o = true
  | none => by unfold Node.beqOpt; rfl
  | some a => by unfold Node.beqOpt; exact Node.beq_refl a

end

/-! ## Concrete evaluations shared by the claim theorems -/

theorem parse_c1doc_eq : Parse "(;KEY[value];B[aa])" =
    ⟨[("KEY", "value")], some (.mk ⟨"B", "aa"⟩ [] [] none), []⟩ := by
  simp +decide [Parse, lexItems, strip_newlines, lexRun, mkItem, errCtxItems,
    quoteErrorContext, quoteContext, spanAlpha, spanValue, spanWhite, consItem, isAlphaP,
    isAlphaCh, isPropertyValueChar, isPrintCh, isWhiteSpaceCh, isSpaceCh, isEndOfLineCh,
    strToUpper, runBuild, bstep, initB, Node.getAt, Node.setAt, Node.addProperty,
    Node.addVariation, Node.setNext, Node.variations, emptyNode, listModify,
    GameInfo.addProperty, giUpdate, strUpper]

theorem parse_c2doc_eq : Parse "(;GM[1];B[aa](;W[bb])(;W[cc]))" =
    ⟨[("GM", "1")],
     some (.mk ⟨"B", "aa"⟩ []
        [.mk ⟨"", ""⟩ [] [] (some (.mk ⟨"W", "bb"⟩ [] [] none)),
         .mk ⟨"", ""⟩ [] [] (some (.mk ⟨"W", "cc"⟩ [] [] none))]
        none),
     []⟩ := by
  simp +decide [Parse, lexItems, strip_newlines, lexRun, mkItem, errCtxItems,
    quoteErrorContext, quoteContext, spanAlpha, spanValue, spanWhite, consItem, isAlphaP,
    isAlphaCh, isPropertyValueChar, isPrintCh, isWhiteSpaceCh, isSpaceCh, isEndOfLineCh,
    strToUpper, runBuild, bstep, initB, Node.getAt, Node.setAt, Node.addProperty,
    Node.addVariation, Node.setNext, Node.variations, emptyNode, listModify,
    GameInfo.addProperty, giUpdate, strUpper]

theorem parse_c6doc_eq : Parse "(;X[1];AB[aa][bb])" =
    ⟨[("X", "1")], some (.mk ⟨"", ""⟩ [⟨"AB", "aa"⟩, ⟨"AB", "bb"⟩] [] none), []⟩ := by
  simp +decide [Parse, lexItems, strip_newlines, lexRun, mkItem, errCtxItems,
    quoteErrorContext, quoteContext, spanAlpha, spanValue, spanWhite, consItem, isAlphaP,
    isAlphaCh, isPropertyValueChar, isPrintCh, isWhiteSpaceCh, isSpaceCh, isEndOfLineCh,
    strToUpper, runBuild, bstep, initB, Node.getAt, Node.setAt, Node.addProperty,
    Node.addVariation, Node.setNext, Node.variations, emptyNode, listModify,
    GameInfo.addProperty, giUpdate, strUpper]

theorem lex_c8doc_eq : lexItems "(;B[aa" =
    ([⟨.leftParen, 0, "("⟩, ⟨.semiColon, 1, ";"⟩, ⟨.propertyName, 2, "B"⟩,
      ⟨.propertyValue, 4, "aa"⟩,
      ⟨.error, 6, "right bracket ']' expected here (position: 6)"⟩], false) := by
  simp +decide [lexItems, strip_newlines, lexRun, mkItem, errCtxItems, quoteErrorContext,
    quoteContext, spanAlpha, spanValue, spanWhite, consItem, isAlphaP, isAlphaCh,
    isPropertyValueChar, isPrintCh, isWhiteSpaceCh, isSpaceCh, isEndOfLineCh, strToUpper,
    rbMsg]

theorem lex_c3doc_eq : lexItems "(;HA[2])" =
    ([⟨.leftParen, 0, "("⟩, ⟨.semiColon, 1, ";"⟩, ⟨.propertyName, 2, "HA"⟩,
      ⟨.propertyValue, 5, "2"⟩, ⟨.rightParen, 7, ")"⟩, ⟨.eof, 8, ""⟩], false) := by
  simp +decide [lexItems, strip_newlines, lexRun, mkItem, errCtxItems, quoteErrorContext,
    quoteContext, spanAlpha, spanValue, spanWhite, consItem, isAlphaP, isAlphaCh,
    isPropertyValueChar, isPrintCh, isWhiteSpaceCh, isSpaceCh, isEndOfLineCh, strToUpper]

/-! ## Claim theorems -/

/-- Claim C1, counterexample: for the document `(;KEY[value];B[aa])` the
property B=aa becomes the move property of the root node itself; the root has
no `next` node, so the claim "the root node's next node has move property
B=aa" is false (the Header and error parts of the claim do hold). -/
theorem c1_counterexample :
    ¬ (GameInfo.getProperty (Parse "(;KEY[value];B[aa])").gameInfo "KEY" = some "value" ∧
       ((Parse "(;KEY[value];B[aa])").gameTree.bind Node.next).map Node.point =
         some ⟨"B", "aa"⟩ ∧
       (Parse "(;KEY[value];B[aa])").errors = []) := by
  rw [parse_c1doc_eq]
  rintro ⟨-, h2, -⟩
  simp [Node.next] at h2

/-- Claim C2, counterexample: in the tree parsed from
`(;GM[1];B[aa](;W[bb])(;W[cc]))` no node at all (in particular not the node
carrying the move aa, and not any node following it) has two variation
children whose move properties are W=bb and W=cc: the variation children's
own move properties are empty — the W moves sit one `next` step inside each
variation. -/
theorem c2_counterexample :
    (Parse "(;GM[1];B[aa](;W[bb])(;W[cc]))").gameTree.map c2Any = some false := by
  rw [parse_c2doc_eq]
  simp +decide [c2Any, c2AnyList, c2VarHit, Node.variations, Node.point]

/-- Claim C2, amended: for `(;GM[1];B[aa](;W[bb])(;W[cc]))` the node holding
move B=aa (the root) has exactly two variation children, in order; each
variation child is an empty node whose `next` node carries the move W=bb
resp. W=cc; the root has no `next`, so the main line is the root alone and
neither variation child is reachable via `next` links. -/
theorem c2_two_variation_children :
    Parse "(;GM[1];B[aa](;W[bb])(;W[cc]))" =
      ⟨[("GM", "1")],
       some (.mk ⟨"B", "aa"⟩ []
          [.mk ⟨"", ""⟩ [] [] (some (.mk ⟨"W", "bb"⟩ [] [] none)),
           .mk ⟨"", ""⟩ [] [] (some (.mk ⟨"W", "cc"⟩ [] [] none))]
          none),
       []⟩ ∧
    (Parse "(;GM[1];B[aa](;W[bb])(;W[cc]))").gameTree.map
        (fun r => (r.point, r.next.isNone,
          r.variations.map (fun v => (v.point, v.next.map Node.point)))) =
      some (⟨"B", "aa"⟩, true,
        [(⟨"", ""⟩, some ⟨"W", "bb"⟩), (⟨"", ""⟩, some ⟨"W", "cc"⟩)]) ∧
    nodeCountFrom (Parse "(;GM[1];B[aa](;W[bb])(;W[cc]))").gameTree = 1 := by
  refine ⟨parse_c2doc_eq, ?_, ?_⟩
  · rw [parse_c2doc_eq]
    simp +decide [Node.point, Node.next, Node.variations]
  · rw [parse_c2doc_eq]
    simp [nodeCountFrom]

/-- Claim C5: the tokenizer does NOT always end its output with a terminal
token.  On input `(` the error path for "semi-colon expected" calls
`quoteContext` with `l.pos = len(input)`, where `end` is clamped to
`len - 1 < l.pos` and the Go slice `input[l.pos:end]` panics: the token
sequence consists of the single LeftParen token, with no EndOfInput and no
Error token (the second component `true` is the panic flag). -/
theorem c5_panic_no_terminal :
    lexItems "(" = ([⟨.leftParen, 0, "("⟩], true) := by
  simp +decide [lexItems, strip_newlines, lexRun, mkItem, errCtxItems, quoteErrorContext,
    quoteContext, consItem]

/-- Claim C8, counterexample: the Error token produced for `(;B[aa` (missing
right bracket, detected at offset 6) has the exact message
"right bracket ']' expected here (position: 6)", which does contain the byte
offset but does not contain the characters `B[aa` immediately preceding the
offset — so it carries no context window around the offset at all. -/
theorem c8_counterexample :
    (lexItems "(;B[aa").1.getLast? =
      some ⟨.error, 6, "right bracket ']' expected here (position: 6)"⟩ ∧
    containsSeg "right bracket ']' expected here (position: 6)".data "B[aa".data = false := by
  constructor
  · rw [lex_c8doc_eq]
    rfl
  · decide

/-- Claim C10: parsing is a pure function of the input — two parses of the
same document (each from the fresh initial builder state, as `Parse` is
defined) yield structurally identical, deep-equal headers, trees and error
lists. -/
theorem c10_deterministic (s : String) : sgfEq (Parse s) (Parse s) = true := by
  simp [sgfEq, Node.beqOpt_refl]

/-- Claim C9: `NodeCount` is the length of the main line — the chain of
`next` links from the root, never entering variations (`mainLine` follows
`next` only); `NthNode n` returns an error exactly when `n < 1` or `n`
exceeds `NodeCount`, and otherwise returns the `n`-th main-line node
(1-based) with no error. -/
theorem c9_mainline_queries (sgf : SGFGame) (n : Int) :
    sgf.NodeCount = (mainLine sgf.gameTree).length ∧
    ((sgf.NthNode n).2.isSome ↔ (n < 1 ∨ (sgf.NodeCount : Int) < n)) ∧
    (1 ≤ n → n ≤ (sgf.NodeCount : Int) →
      sgf.NthNode n = ((mainLine sgf.gameTree).get? (n - 1).toNat, none) ∧
      ∃ nd, (sgf.NthNode n).1 = some nd) := by
  refine ⟨nodeCountFrom_eq_len sgf.gameTree, ?_, ?_⟩
  · unfold SGFGame.NthNode
    split_ifs with h1 h2
    · simpa using Or.inl h1
    · simpa using Or.inr h2
    · simp only [Option.isSome_none, Bool.false_eq_true, false_iff]
      omega
  · intro hge hle
    unfold SGFGame.NthNode
    rw [if_neg (by omega), if_neg (by omega)]
    have hlen : sgf.NodeCount = (mainLine sgf.gameTree).length :=
      nodeCountFrom_eq_len sgf.gameTree
    have hlt : (n - 1).toNat < (mainLine sgf.gameTree).length := by omega
    constructor
    · rw [nthFrom_eq_get?]
    · exact ⟨_, by rw [nthFrom_eq_get?, List.get?_eq_get hlt]⟩

/-- Claim C9, witness: a record whose tree is the single node B=aa, queried
with n = 1. -/
theorem c9_mainline_queries_witness :
    (⟨[], some (.mk ⟨"B", "aa"⟩ [] [] none), []⟩ : SGFGame).NthNode 1 =
      (some (.mk ⟨"B", "aa"⟩ [] [] none), none) ∧
    ∃ nd, ((⟨[], some (.mk ⟨"B", "aa"⟩ [] [] none), []⟩ : SGFGame).NthNode 1).1 = some nd := by
  have h := (c9_mainline_queries ⟨[], some (.mk ⟨"B", "aa"⟩ [] [] none), []⟩ 1).2.2
    (by omega)
    (by simp [SGFGame.NodeCount, nodeCountFrom])
  refine ⟨?_, h.2⟩
  rw [h.1]
  simp [mainLine]

/-- Claim C6: from any in-tree builder state, the token segment
`; AB[v1][v2]` (Semicolon, PropertyName AB, PropertyValue v1, PropertyValue
v2 — repeated values complete the same buffered name) creates a new node
carrying exactly two property entries, both named AB, with values v1 and v2
in that order — not one entry holding two values.  Second conjunct: the same
end-to-end for the concrete document `(;X[1];AB[aa][bb])`. -/
theorem c6_multivalued_properties :
    (∀ (st : BState) (p : List Step) (root nd : Node) (q0 q1 q2 q3 : Nat)
       (w0 v1 v2 : String),
      st.parsingSetup = false → st.parsingGame = true →
      st.gameTree = some root → st.cur = some p → root.getAt p = some nd →
      ∃ root3,
        (bstep (bstep (bstep (bstep st ⟨.semiColon, q0, w0⟩) ⟨.propertyName, q1, "AB"⟩)
            ⟨.propertyValue, q2, v1⟩) ⟨.propertyValue, q3, v2⟩).gameTree = some root3 ∧
        root3.getAt (p ++ [Step.nextS]) =
          some (.mk ⟨"", ""⟩ [⟨"AB", v1⟩, ⟨"AB", v2⟩] [] none)) ∧
    Parse "(;X[1];AB[aa][bb])" =
      ⟨[("X", "1")], some (.mk ⟨"", ""⟩ [⟨"AB", "aa"⟩, ⟨"AB", "bb"⟩] [] none), []⟩ := by
  refine ⟨?_, parse_c6doc_eq⟩
  intro st p root nd q0 q1 q2 q3 w0 v1 v2 hsetup hgame htree hcur hget
  obtain ⟨pt, pr, vs, nx⟩ := nd
  have h1 : bstep st ⟨.semiColon, q0, w0⟩ =
      { st with gameTree := some (root.setAt p Node.setNext),
                cur := some (p ++ [Step.nextS]) } := by
    simp [bstep, hsetup, hgame, htree, hcur]
  have h2 : bstep (bstep st ⟨.semiColon, q0, w0⟩) ⟨.propertyName, q1, "AB"⟩ =
      { st with gameTree := some (root.setAt p Node.setNext),
                cur := some (p ++ [Step.nextS]), prop := ⟨"AB", ""⟩ } := by
    rw [h1]; simp [bstep]
  have hR1 : (root.setAt p Node.setNext).getAt (p ++ [Step.nextS]) = some emptyNode := by
    rw [getAt_append, getAt_setAt_self p root ⟨pt, pr, vs, nx⟩ Node.setNext hget]
    simp [Node.setNext, Node.getAt]
  have h3 : bstep (bstep (bstep st ⟨.semiColon, q0, w0⟩) ⟨.propertyName, q1, "AB"⟩)
      ⟨.propertyValue, q2, v1⟩ =
      { st with gameTree := some ((root.setAt p Node.setNext).setAt (p ++ [Step.nextS])
                  (fun n => n.addProperty ⟨"AB", v1⟩)),
                cur := some (p ++ [Step.nextS]), prop := ⟨"AB", v1⟩ } := by
    rw [h2]; simp [bstep, hsetup]
  have hR2 : ((root.setAt p Node.setNext).setAt (p ++ [Step.nextS])
      (fun n => n.addProperty ⟨"AB", v1⟩)).getAt (p ++ [Step.nextS]) =
      some (.mk ⟨"", ""⟩ [⟨"AB", v1⟩] [] none) := by
    rw [getAt_setAt_self (p ++ [Step.nextS]) _ emptyNode _ hR1]
    simp +decide [emptyNode, Node.addProperty]
  refine ⟨((root.setAt p Node.setNext).setAt (p ++ [Step.nextS])
      (fun n => n.addProperty ⟨"AB", v1⟩)).setAt (p ++ [Step.nextS])
      (fun n => n.addProperty ⟨"AB", v2⟩), ?_, ?_⟩
  · rw [h3]; simp [bstep, hsetup]
  · rw [getAt_setAt_self (p ++ [Step.nextS]) _ (.mk ⟨"", ""⟩ [⟨"AB", v1⟩] [] none) _ hR2]
    simp +decide [Node.addProperty]

theorem bstep_errors (st : BState) (i : Item) : (bstep st i).errors = st.errors := by
  rcases i with ⟨typ, q, v⟩
  cases typ <;> simp only [bstep] <;> (repeat' split) <;> rfl

theorem bstep_panicked_mono (st : BState) (i : Item) (h : st.panicked = true) :
    (bstep st i).panicked = true := by
  rcases i with ⟨typ, q, v⟩
  cases typ <;> simp only [bstep] <;> (repeat' split) <;> simp [h]

theorem stepFold_errors : ∀ (items : List Item) (st : BState),
    (stepFold items st).errors = st.errors
  | [], _ => rfl
  | i :: items, st => by
    show (stepFold items (bstep st i)).errors = st.errors
    rw [stepFold_errors items (bstep st i), bstep_errors]

theorem stepFold_panicked_mono : ∀ (items : List Item) (st : BState),
    st.panicked = true → (stepFold items st).panicked = true
  | [], _, h => h
  | i :: items, st, h =>
    stepFold_panicked_mono items (bstep st i) (bstep_panicked_mono st i h)

/-- Claim C4: whenever the builder meets an Error token, it appends the
message to the record's error list and stops: the tokens after the error are
never consumed, the header and tree built from the prefix are retained
unchanged, and the error list of the parse is exactly the starting error list
plus that one message (so a parse from the fresh state gains exactly one
entry). -/
theorem c4_error_stops_builder :
    ∀ (pre rest : List Item) (st : BState) (q : Nat) (m : String),
      (∀ i ∈ pre, i.typ ≠ .error ∧ i.typ ≠ .eof) → st.panicked = false →
      (stepFold pre st).panicked = false →
      runBuild (pre ++ ⟨.error, q, m⟩ :: rest) st =
        { stepFold pre st with errors := st.errors ++ [m] }
  | [], rest, st, q, m, _, _, _ => by
    simp [runBuild, stepFold]
  | i :: pre, rest, st, q, m, hclean, hp, hfold => by
    obtain ⟨hne, hneof⟩ := hclean i (List.mem_cons_self i pre)
    have hfold' : stepFold (i :: pre) st = stepFold pre (bstep st i) := rfl
    have hp1 : (bstep st i).panicked = false := by
      cases hb : (bstep st i).panicked with
      | false => rfl
      | true =>
        rw [hfold'] at hfold
        rw [stepFold_panicked_mono pre (bstep st i) hb] at hfold
        exact absurd hfold (by simp)
    have ih := c4_error_stops_builder pre rest (bstep st i) q m
      (fun j hj => hclean j (List.mem_cons_of_mem i hj)) hp1 (by rw [← hfold']; exact hfold)
    rw [bstep_errors st i] at ih
    have key : runBuild ((i :: pre) ++ ⟨.error, q, m⟩ :: rest) st =
        runBuild (pre ++ ⟨.error, q, m⟩ :: rest) (bstep st i) := by
      rcases i with ⟨typ, qq, vv⟩
      cases typ
      case error => exact absurd rfl hne
      case eof => exact absurd rfl hneof
      all_goals (simp only [List.cons_append, runBuild, hp1, Bool.false_eq_true, if_false]
                 try rfl)
    rw [key, ih, hfold']

/-- Claim C4, witness: a Semicolon followed by an Error token, starting from
the fresh builder state. -/
theorem c4_error_stops_builder_witness :
    runBuild ([⟨.semiColon, 0, ";"⟩] ++ ⟨.error, 1, "boom"⟩ :: [⟨.eof, 2, ""⟩]) initB =
      { stepFold [⟨.semiColon, 0, ";"⟩] initB with errors := initB.errors ++ ["boom"] } :=
  c4_error_stops_builder [⟨.semiColon, 0, ";"⟩] [⟨.eof, 2, ""⟩] initB 1 "boom"
    (by intro i hi; simp at hi; subst hi; exact ⟨by simp, by simp⟩)
    rfl
    (by rfl)

theorem consItem_eq (it : Item) (x : List Item × Bool) : consItem it x = (it :: x.1, x.2) := by
  rcases x with ⟨l, p⟩
  rfl

theorem pn_shape (rem done acc : List Char) :
    ∃ q v out pb, lexRun .lexPropertyName rem done acc =
      (⟨.propertyName, q, v⟩ :: out, pb) := by
  simp only [lexRun]
  split
  · exact ⟨_, _, _, _, consItem_eq _ _⟩
  · exact ⟨_, _, _, _, consItem_eq _ _⟩

/-- Claim C7: after emitting a Semicolon token, a directly following second
`;` is silently consumed without a second Semicolon token being emitted (the
scan continues with the property-name state on the character after it); if
the character after the doubled semicolon is not alphabetic, the tokenizer
emits an Error token whose message starts "property expected here" and
stops. -/
theorem c7_doubled_semicolon :
    (∀ (c d : Char) (rest3 done acc : List Char), isAlphaCh d = true →
      lexRun .lexSemiColon (c :: ';' :: d :: rest3) done acc =
        consItem (mkItem .semiColon (c :: done) (c :: acc))
          (lexRun .lexPropertyName (d :: rest3) (';' :: c :: done) []) ∧
      ∃ q v out pb, lexRun .lexPropertyName (d :: rest3) (';' :: c :: done) [] =
        (⟨.propertyName, q, v⟩ :: out, pb)) ∧
    (∀ (c d : Char) (rest3 done acc : List Char), isAlphaCh d = false →
      lexRun .lexSemiColon (c :: ';' :: d :: rest3) done acc =
        ([mkItem .semiColon (c :: done) (c :: acc),
          ⟨.error, (';' :: c :: done).length,
            "property expected here, position " ++ toString (';' :: c :: done).length ++
              ", " ++ quoteString ((((';' :: c :: done).take 6).reverse ++ '|' ::
                (if (d :: rest3).length ≤ 6 then (d :: rest3).take ((d :: rest3).length - 1)
                 else (d :: rest3).take 6)).asString)⟩], false)) := by
  constructor
  · intro c d rest3 done acc hd
    constructor
    · simp [lexRun, isAlphaP, hd]
    · exact pn_shape _ _ _
  · intro c d rest3 done acc hd
    simp [lexRun, isAlphaP, hd, errCtxItems, quoteErrorContext, quoteContext, consItem,
      quoteString]

/-- Claim C7, witness: the document tail `;;B...` (alphabetic follower) and
`;;1...` (non-alphabetic follower). -/
theorem c7_doubled_semicolon_witness :
    lexRun .lexSemiColon [';', ';', 'B', '[', 'a', ']'] [] [] =
      consItem (mkItem .semiColon [';'] [';'])
        (lexRun .lexPropertyName ['B', '[', 'a', ']'] [';', ';'] []) ∧
    lexRun .lexSemiColon [';', ';', '1'] [] [] =
      ([⟨.semiColon, 0, ";"⟩,
        ⟨.error, 2, "property expected here, position 2, \";;|\""⟩], false) := by
  constructor
  · exact ((c7_doubled_semicolon.1 ';' 'B' ['[', 'a', ']'] [] [] (by decide)).1)
  · rw [(c7_doubled_semicolon.2 ';' '1' [] [] [] (by decide))]
    decide

/-- Claim C8, amended: every Error token's message contains the byte offset,
but only the errors raised through `QuoteErrorContext` (missing semicolon
after `(`, missing property after `;`, missing `[` after a name) also carry
the ≈6-characters-each-side context window; the two errors of the
value-scanning state (missing `]`, and bad dispatch after a value) carry the
offset (and, for the dispatch error, the offending character) but no context
window. -/
theorem c8_error_message_content :
    (∀ (c d : Char) (rest2 done acc : List Char), d ≠ ';' →
      lexRun .lexLeftParen (c :: d :: rest2) done acc =
        ([mkItem .leftParen (c :: done) (c :: acc),
          ⟨.error, (c :: done).length,
            "semi-colon expected here, position " ++ toString (c :: done).length ++ ", " ++
              quoteString ((((c :: done).take 6).reverse ++ '|' ::
                (if (d :: rest2).length ≤ 6 then (d :: rest2).take ((d :: rest2).length - 1)
                 else (d :: rest2).take 6)).asString)⟩], false)) ∧
    (∀ (c d : Char) (rest2 done acc : List Char), d ≠ ';' → isAlphaCh d = false →
      lexRun .lexSemiColon (c :: d :: rest2) done acc =
        ([mkItem .semiColon (c :: done) (c :: acc),
          ⟨.error, (c :: done).length,
            "property expected here, position " ++ toString (c :: done).length ++ ", " ++
              quoteString ((((c :: done).take 6).reverse ++ '|' ::
                (if (d :: rest2).length ≤ 6 then (d :: rest2).take ((d :: rest2).length - 1)
                 else (d :: rest2).take 6)).asString)⟩], false)) ∧
    (∀ (nm : List Char) (d : Char) (rest2 done acc : List Char),
      (∀ ch ∈ nm, isAlphaCh ch = true) → isAlphaCh d = false → d ≠ '[' →
      lexRun .lexPropertyName (nm ++ d :: rest2) done acc =
        ([⟨.propertyName, (nm.reverse ++ done).length - (nm.reverse ++ acc).length,
            (strToUpper (nm.reverse ++ acc).reverse).asString⟩,
          ⟨.error, (nm.reverse ++ done).length,
            "left bracket '[' expected here, position " ++
              toString (nm.reverse ++ done).length ++ ", " ++
              quoteString ((((nm.reverse ++ done).take 6).reverse ++ '|' ::
                (if (d :: rest2).length ≤ 6 then (d :: rest2).take ((d :: rest2).length - 1)
                 else (d :: rest2).take 6)).asString)⟩], false)) ∧
    (∀ (c : Char) (v rest2 done acc : List Char),
      (∀ ch ∈ v, isPropertyValueChar ch = true) →
      (∀ ch, rest2.head? = some ch → isPropertyValueChar ch = false) →
      rest2.head? ≠ some ']' →
      lexRun .lexLeftBracket (c :: (v ++ rest2)) done acc =
        ([⟨.propertyValue, (c :: done).length, v.asString⟩,
          ⟨.error, (v.reverse ++ c :: done).length,
            rbMsg (v.reverse ++ c :: done).length⟩], false)) ∧
    (∀ (c e : Char) (v rest3 done acc : List Char),
      (∀ ch ∈ v, isPropertyValueChar ch = true) →
      isWhiteSpaceCh e = false → e ≠ '[' → e ≠ ';' → e ≠ '(' → e ≠ ')' →
      isAlphaCh e = false →
      lexRun .lexLeftBracket (c :: (v ++ ']' :: e :: rest3)) done acc =
        ([⟨.propertyValue, (c :: done).length, v.asString⟩,
          ⟨.error, (']' :: v.reverse ++ c :: done).length,
            pnpMsg (']' :: v.reverse ++ c :: done).length (some e)⟩], false)) := by
  refine ⟨?_, ?_, ?_, ?_, ?_⟩
  · intro c d rest2 done acc hd
    simp [lexRun, hd, errCtxItems, quoteErrorContext, quoteContext, consItem, quoteString]
  · intro c d rest2 done acc hd hda
    simp [lexRun, hd, isAlphaP, hda, errCtxItems, quoteErrorContext, quoteContext,
      consItem, quoteString]
  · intro nm d rest2 done acc hnm hda hd
    have hspan := spanAlpha_all nm (d :: rest2) hnm (by simp [isAlphaP, hda])
    simp [lexRun, hspan, hd, errCtxItems, quoteErrorContext, quoteContext, consItem,
      quoteString]
  · intro c v rest2 done acc hv hrest hne
    have hspan := spanValue_all v rest2 hv hrest
    simp only [lexRun, hspan]
    rw [if_neg hne]
  · intro c e v rest3 done acc hv hws h1 h2 h3 h4 h5
    have hspan := spanValue_all v (']' :: e :: rest3) hv (by intro ch hch; cases hch; decide)
    have hwsp := spanWhite_head (e :: rest3) e rfl hws
    simp [lexRun, hspan, hwsp, h1, h2, h3, h4, h5, isAlphaP]

/-- Claim C8, witness: concrete error inputs for each of the five error
sites. -/
theorem c8_error_message_content_witness :
    lexRun .lexLeftParen ['(', 'x'] [] [] =
      ([⟨.leftParen, 0, "("⟩,
        ⟨.error, 1, "semi-colon expected here, position 1, \"(|\""⟩], false) ∧
    lexRun .lexSemiColon [';', '1'] [] [] =
      ([⟨.semiColon, 0, ";"⟩,
        ⟨.error, 1, "property expected here, position 1, \";|\""⟩], false) ∧
    lexRun .lexPropertyName ['A', 'B', '!'] [] [] =
      ([⟨.propertyName, 0, "AB"⟩,
        ⟨.error, 2, "left bracket '[' expected here, position 2, \"AB|\""⟩], false) ∧
    lexRun .lexLeftBracket ['[', 'a', 'a'] [] [] =
      ([⟨.propertyValue, 1, "aa"⟩,
        ⟨.error, 3, "right bracket ']' expected here (position: 3)"⟩], false) ∧
    lexRun .lexLeftBracket ['[', 'a', ']', '!'] [] [] =
      ([⟨.propertyValue, 1, "a"⟩,
        ⟨.error, 3,
          "property or node or parenthesis expected here (position: 3). Found: '!'"⟩],
        false) := by
  refine ⟨?_, ?_, ?_, ?_, ?_⟩
  · rw [c8_error_message_content.1 '(' 'x' [] [] [] (by decide)]
    decide
  · rw [c8_error_message_content.2.1 ';' '1' [] [] [] (by decide) (by decide)]
    decide
  · rw [show ['A', 'B', '!'] = ['A', 'B'] ++ '!' :: [] from rfl,
      c8_error_message_content.2.2.1 ['A', 'B'] '!' [] [] [] (by decide) (by decide)
        (by decide)]
    decide
  · rw [show ['[', 'a', 'a'] = '[' :: (['a', 'a'] ++ []) from rfl,
      c8_error_message_content.2.2.2.1 '[' ['a', 'a'] [] [] [] (by decide)
        (by intro ch hch; simp at hch) (by simp)]
    decide
  · rw [show ['[', 'a', ']', '!'] = '[' :: (['a'] ++ ']' :: '!' :: []) from rfl,
      c8_error_message_content.2.2.2.2 '[' '!' ['a'] [] [] [] (by decide) (by decide)
        (by decide) (by decide) (by decide) (by decide) (by decide)]
    decide

theorem build_setup : ∀ (items : List Item) (st : BState),
    st.parsingSetup = true → st.parsingGame = false → st.panicked = false →
    st.gameTree = none →
    items.countP (fun i => decide (i.typ = .semiColon)) = 0 →
    (runBuild items st).gameTree = none ∧ (runBuild items st).panicked = false ∧
      (runBuild items st).gameInfo = headerRun st.prop.name st.gameInfo items
  | [], st, _, _, h3, h4, _ => ⟨h4, h3, rfl⟩
  | ⟨typ, q, v⟩ :: items, st, h1, h2, h3, h4, h5 => by
    rw [List.countP_cons] at h5
    cases typ
    case semiColon => simp at h5
    case error => exact ⟨h4, h3, rfl⟩
    case eof => exact ⟨h4, h3, rfl⟩
    case leftParen =>
      have hst : bstep st ⟨.leftParen, q, v⟩ = st := by simp [bstep, h2]
      have := build_setup items st h1 h2 h3 h4 (by omega)
      simpa [runBuild, hst, h3, headerRun] using this
    case rightParen =>
      have hst : bstep st ⟨.rightParen, q, v⟩ = st := by simp [bstep, h2]
      have := build_setup items st h1 h2 h3 h4 (by omega)
      simpa [runBuild, hst, h3, headerRun] using this
    case leftBracket =>
      have hst : bstep st ⟨.leftBracket, q, v⟩ = st := by simp [bstep]
      have := build_setup items st h1 h2 h3 h4 (by omega)
      simpa [runBuild, hst, h3, headerRun] using this
    case rightBracket =>
      have hst : bstep st ⟨.rightBracket, q, v⟩ = st := by simp [bstep]
      have := build_setup items st h1 h2 h3 h4 (by omega)
      simpa [runBuild, hst, h3, headerRun] using this
    case propertyName =>
      have hst : bstep st ⟨.propertyName, q, v⟩ = { st with prop := ⟨v, ""⟩ } := by
        simp [bstep]
      have := build_setup items { st with prop := ⟨v, ""⟩ } h1 h2 h3 h4 (by omega)
      simpa [runBuild, hst, h3, headerRun] using this
    case propertyValue =>
      have hst : bstep st ⟨.propertyValue, q, v⟩ =
          { st with prop := ⟨st.prop.name, v⟩,
                    gameInfo := GameInfo.addProperty st.gameInfo ⟨st.prop.name, v⟩ } := by
        simp [bstep, h1]
      have := build_setup items
        { st with prop := ⟨st.prop.name, v⟩,
                  gameInfo := GameInfo.addProperty st.gameInfo ⟨st.prop.name, v⟩ }
        h1 h2 h3 h4 (by omega)
      simpa [runBuild, hst, h3, headerRun] using this

theorem noPVFirst_cons (i : Item) (items : List Item) (h1 : i.typ ≠ .semiColon)
    (h2 : i.typ ≠ .propertyValue) (h3 : noPVFirst (i :: items) = true) :
    noPVFirst items = true := by
  simp only [noPVFirst, List.takeWhile] at h3 ⊢
  rw [show (!decide (i.typ = ItemType.semiColon)) = true by simp [h1]] at h3
  simp only [List.all_cons, Bool.and_eq_true] at h3
  exact h3.2

theorem build_idle : ∀ (items : List Item) (st : BState),
    st.parsingSetup = false → st.parsingGame = false → st.panicked = false →
    st.gameTree = none →
    items.countP (fun i => decide (i.typ = .semiColon)) ≤ 1 →
    noPVFirst items = true →
    (runBuild items st).gameTree = none ∧ (runBuild items st).panicked = false ∧
      (runBuild items st).gameInfo = headerRun st.prop.name st.gameInfo items
  | [], st, _, _, h3, h4, _, _ => ⟨h4, h3, rfl⟩
  | ⟨typ, q, v⟩ :: items, st, h1, h2, h3, h4, h5, h6 => by
    rw [List.countP_cons] at h5
    cases typ
    case error => exact ⟨h4, h3, rfl⟩
    case eof => exact ⟨h4, h3, rfl⟩
    case semiColon =>
      have hst : bstep st ⟨.semiColon, q, v⟩ = { st with parsingSetup := true } := by
        simp [bstep, h1, h2]
      have := build_setup items { st with parsingSetup := true } rfl h2 h3 h4
        (by simp at h5
            simpa [List.countP_eq_zero] using h5)
      simpa [runBuild, hst, h3, headerRun] using this
    case propertyValue =>
      exfalso
      simp [noPVFirst, List.takeWhile] at h6
    case leftParen =>
      have hst : bstep st ⟨.leftParen, q, v⟩ = st := by simp [bstep, h2]
      have := build_idle items st h1 h2 h3 h4 (by omega)
        (noPVFirst_cons _ items (by simp) (by simp) h6)
      simpa [runBuild, hst, h3, headerRun] using this
    case rightParen =>
      have hst : bstep st ⟨.rightParen, q, v⟩ = st := by simp [bstep, h2]
      have := build_idle items st h1 h2 h3 h4 (by omega)
        (noPVFirst_cons _ items (by simp) (by simp) h6)
      simpa [runBuild, hst, h3, headerRun] using this
    case leftBracket =>
      have hst : bstep st ⟨.leftBracket, q, v⟩ = st := by simp [bstep]
      have := build_idle items st h1 h2 h3 h4 (by omega)
        (noPVFirst_cons _ items (by simp) (by simp) h6)
      simpa [runBuild, hst, h3, headerRun] using this
    case rightBracket =>
      have hst : bstep st ⟨.rightBracket, q, v⟩ = st := by simp [bstep]
      have := build_idle items st h1 h2 h3 h4 (by omega)
        (noPVFirst_cons _ items (by simp) (by simp) h6)
      simpa [runBuild, hst, h3, headerRun] using this
    case propertyName =>
      have hst : bstep st ⟨.propertyName, q, v⟩ = { st with prop := ⟨v, ""⟩ } := by
        simp [bstep]
      have := build_idle items { st with prop := ⟨v, ""⟩ } h1 h2 h3 h4 (by omega)
        (noPVFirst_cons _ items (by simp) (by simp) h6)
      simpa [runBuild, hst, h3, headerRun] using this

theorem semi_head (c : Char) (rest done acc : List Char) :
    ∃ out pb, lexRun .lexSemiColon (c :: rest) done acc =
      (mkItem .semiColon (c :: done) (c :: acc) :: out, pb) := by
  simp only [lexRun]
  repeat' split
  all_goals exact ⟨_, _, consItem_eq _ _⟩

theorem errCtx_shape (msg : String) (done rem : List Char) :
    errCtxItems msg done rem = ([], true) ∨
    ∃ m, errCtxItems msg done rem = ([⟨.error, done.length, m⟩], false) := by
  unfold errCtxItems
  rcases h : quoteErrorContext msg done rem with - | m
  · exact Or.inl rfl
  · exact Or.inr ⟨m, rfl⟩

theorem lp_noPV (c : Char) (rest done acc : List Char) :
    noPVFirst (lexRun .lexLeftParen (c :: rest) done acc).1 = true := by
  simp only [lexRun]
  split
  · next h =>
    cases rest with
    | nil => simp at h
    | cons d rest' =>
      simp only [List.head?] at h
      cases h
      obtain ⟨out, pb, hsemi⟩ := semi_head ';' rest' (c :: done) []
      rw [hsemi, consItem_eq]
      simp [noPVFirst, List.takeWhile, mkItem]
  · rcases errCtx_shape "semi-colon expected here" (c :: done) rest with h | ⟨m, h⟩
    all_goals rw [h, consItem_eq]
    all_goals simp [noPVFirst, List.takeWhile, mkItem]

theorem begin_shape : ∀ (rem done acc : List Char),
    (∃ d a, lexRun .lexBegin rem done acc = ([mkItem .eof d a], false)) ∨
    (∃ (c : Char) (rest d a : List Char),
      lexRun .lexBegin rem done acc = lexRun .lexLeftParen (c :: rest) d a)
  | [], done, acc => Or.inl ⟨done, acc, by simp [lexRun]⟩
  | c :: rest, done, acc => by
    by_cases h : c = '('
    · exact Or.inr ⟨c, rest, done, acc, by simp [lexRun, h]⟩
    · rw [show lexRun .lexBegin (c :: rest) done acc =
        lexRun .lexBegin rest (c :: done) (c :: acc) by simp [lexRun, h]]
      exact begin_shape rest (c :: done) (c :: acc)

theorem lex_noPV (s : String) : noPVFirst (lexItems s).1 = true := by
  unfold lexItems
  rcases begin_shape (strip_newlines s.data) [] [] with ⟨d, a, h⟩ | ⟨c, rest, d, a, h⟩
  · rw [h]
    simp [noPVFirst, List.takeWhile, mkItem]
  · rw [h]
    exact lp_noPV c rest d a

/-- Claim C3: for every input whose token stream contains at most one
Semicolon token, the builder never transitions past the header phase: no
root node is ever allocated (`gameTree` stays `none`), no nil-pointer panic
occurs, and the final header map is exactly the fold of every completed
property of the stream into the header (so every completed property lands in
the Header map rather than in any node — there are no nodes). -/
theorem c3_single_node_header (s : String)
    (h : (lexItems s).1.countP (fun i => decide (i.typ = .semiColon)) ≤ 1) :
    (Parse s).gameTree = none ∧
    (Parse s).gameInfo = headerRun "" [] (lexItems s).1 ∧
    (runBuild (lexItems s).1 initB).panicked = false := by
  have h2 := lex_noPV s
  have h3 := build_idle (lexItems s).1 initB rfl rfl rfl rfl h h2
  exact ⟨h3.1, h3.2.2, h3.2.1⟩

/-- Claim C3, witness: the single-node document `(;HA[2])`. -/
theorem c3_single_node_header_witness :
    ((lexItems "(;HA[2])").1.countP (fun i => decide (i.typ = .semiColon)) ≤ 1) ∧
    (Parse "(;HA[2])").gameTree = none ∧
    (Parse "(;HA[2])").gameInfo = headerRun "" [] (lexItems "(;HA[2])").1 ∧
    (runBuild (lexItems "(;HA[2])").1 initB).panicked = false := by
  have hc : (lexItems "(;HA[2])").1.countP (fun i => decide (i.typ = .semiColon)) ≤ 1 := by
    rw [lex_c3doc_eq]
    decide
  have h := c3_single_node_header "(;HA[2])" hc
  exact ⟨hc, h.1, h.2.1, h.2.2⟩

theorem asString_data (l : List Char) : (List.asString l).data = l := rfl

theorem strip_noeffect (l : List Char) (h : ∀ c ∈ l, c ≠ '\n' ∧ c ≠ '\r') :
    strip_newlines l = l := by
  unfold strip_newlines
  rw [List.filter_eq_self]
  intro c hc
  have hcc := h c hc
  simp [hcc.1, hcc.2]

theorem alpha_no_newline {c : Char} (h : isAlphaCh c = true) : c ≠ '\n' ∧ c ≠ '\r' :=
  ⟨by rintro rfl; exact absurd h (by decide), by rintro rfl; exact absurd h (by decide)⟩

theorem value_no_newline {c : Char} (h : isPropertyValueChar c = true) :
    c ≠ '\n' ∧ c ≠ '\r' :=
  ⟨by rintro rfl; exact absurd h (by decide), by rintro rfl; exact absurd h (by decide)⟩

/-- Claim C1, amended: for every well-formed document of the form
`(;KEY[value];B[aa])` — KEY a nonempty run of uppercase letters, value a run
of printable non-`]` characters — the Header maps KEY to value and the error
list is empty, but the move property B=aa sits on the root node itself: the
root is the node created by the second semicolon, it receives the move, and
it has no `next` node. -/
theorem c1_header_and_root_move (key value : List Char) (hk0 : key ≠ [])
    (hk : ∀ c ∈ key, isAlphaCh c = true ∧ c.toUpper = c)
    (hv : ∀ c ∈ value, isPropertyValueChar c = true) :
    Parse (('(' :: ';' :: key ++ '[' :: value ++
        [']', ';', 'B', '[', 'a', 'a', ']', ')']).asString) =
      ⟨[(key.asString, value.asString)], some (.mk ⟨"B", "aa"⟩ [] [] none), []⟩ ∧
    GameInfo.getProperty [(key.asString, value.asString)] key.asString =
      some value.asString := by
  cases key with
  | nil => exact absurd rfl hk0
  | cons k key2 =>
  have hka : ∀ c ∈ k :: key2, isAlphaCh c = true := fun c hc => (hk c hc).1
  have hik : isAlphaCh k = true := hka k (List.mem_cons_self k key2)
  have hkne : ¬ (k = ';') := by rintro rfl; exact absurd hik (by decide)
  have hkU : strToUpper (k :: key2) = k :: key2 :=
    strToUpper_self _ (fun c hc => (hk c hc).2)
  have hspanA : spanAlpha (k :: (key2 ++
        ('[' :: (value ++ [']', ';', 'B', '[', 'a', 'a', ']', ')'])))) =
      (k :: key2, '[' :: (value ++ [']', ';', 'B', '[', 'a', 'a', ']', ')'])) := by
    have := spanAlpha_all (k :: key2) ('[' :: (value ++ [']', ';', 'B', '[', 'a', 'a', ']', ')']))
      hka (by simp [isAlphaP]; decide)
    simpa using this
  have hspanV : spanValue (value ++ (']' :: [';', 'B', '[', 'a', 'a', ']', ')'])) =
      (value, ']' :: [';', 'B', '[', 'a', 'a', ']', ')']) :=
    spanValue_all _ _ hv (by intro ch hch; cases hch; decide)
  have hstrip : strip_newlines ('(' :: ';' :: (k :: key2) ++ '[' :: value ++
        [']', ';', 'B', '[', 'a', 'a', ']', ')']) =
      '(' :: ';' :: (k :: key2) ++ '[' :: value ++ [']', ';', 'B', '[', 'a', 'a', ']', ')'] := by
    apply strip_noeffect
    rw [show ('(' :: ';' :: (k :: key2) ++ '[' :: value ++
          [']', ';', 'B', '[', 'a', 'a', ']', ')']) =
        (['(', ';'] ++ (k :: key2)) ++
          (['['] ++ (value ++ [']', ';', 'B', '[', 'a', 'a', ']', ')'])) from by simp]
    intro c hc
    rcases List.mem_append.mp hc with h | h
    · rcases List.mem_append.mp h with h2 | h2
      · simp only [List.mem_cons, List.not_mem_nil, or_false] at h2
        rcases h2 with rfl | rfl
        · exact ⟨by decide, by decide⟩
        · exact ⟨by decide, by decide⟩
      · exact alpha_no_newline (hka c h2)
    · rcases List.mem_append.mp h with h2 | h2
      · simp only [List.mem_cons, List.not_mem_nil, or_false] at h2
        subst h2
        exact ⟨by decide, by decide⟩
      · rcases List.mem_append.mp h2 with h3 | h3
        · exact value_no_newline (hv c h3)
        · simp only [List.mem_cons, List.not_mem_nil, or_false] at h3
          rcases h3 with rfl | rfl | rfl | rfl | rfl | rfl | rfl | rfl <;>
            exact ⟨by decide, by decide⟩
  constructor
  · unfold Parse lexItems
    rw [asString_data, hstrip]
    simp +decide [lexRun, runBuild, bstep, consItem, mkItem, spanWhite, hspanA, hspanV,
      hkne, hik, isAlphaP, hkU, strUpper, asString_data, GameInfo.addProperty, giUpdate,
      initB, emptyNode, Node.setAt, Node.getAt, Node.addProperty, Node.setNext,
      Node.addVariation, Node.variations, listModify, errCtxItems, quoteErrorContext,
      quoteContext, isWhiteSpaceCh, isSpaceCh, isEndOfLineCh]
    simp +decide [lexRun, runBuild, bstep, consItem, mkItem, spanAlpha, spanValue,
      spanWhite, strToUpper, errCtxItems, quoteErrorContext, quoteContext,
      GameInfo.addProperty, giUpdate, strUpper, asString_data, Node.setAt, Node.getAt,
      Node.addProperty, Node.setNext, Node.addVariation, Node.variations, listModify,
      emptyNode, isAlphaP]
  · simp [GameInfo.getProperty, strUpper, asString_data, hkU, List.find?]

/-- Claim C1, witness for the amended theorem: KEY = "KEY", value = "value"
(the concrete document `(;KEY[value];B[aa])`). -/
theorem c1_header_and_root_move_witness :
    Parse "(;KEY[value];B[aa])" =
      ⟨[("KEY", "value")], some (.mk ⟨"B", "aa"⟩ [] [] none), []⟩ ∧
    GameInfo.getProperty [("KEY", "value")] "KEY" = some "value" := by
  have h := c1_header_and_root_move ['K', 'E', 'Y'] ['v', 'a', 'l', 'u', 'e']
    (by decide) (by decide) (by decide)
  have e1 : ('(' :: ';' :: ['K', 'E', 'Y'] ++ '[' :: ['v', 'a', 'l', 'u', 'e'] ++
      [']', ';', 'B', '[', 'a', 'a', ']', ')']).asString = "(;KEY[value];B[aa])" := by decide
  have e2 : List.asString ['K', 'E', 'Y'] = "KEY" := by decide
  have e3 : List.asString ['v', 'a', 'l', 'u', 'e'] = "value" := by decide
  rw [e1, e2, e3] at h
  exact h

/-- Claim C6, witness: the general part applied to the fresh in-tree state
whose root is the empty node at address `[]`. -/
theorem c6_multivalued_properties_witness :
    ∃ root3,
      (bstep (bstep (bstep (bstep ⟨[], some emptyNode, [], some [], ⟨"", ""⟩,
            false, true, [], false⟩ ⟨.semiColon, 0, ";"⟩) ⟨.propertyName, 1, "AB"⟩)
          ⟨.propertyValue, 2, "x"⟩) ⟨.propertyValue, 3, "y"⟩).gameTree = some root3 ∧
      root3.getAt ([] ++ [Step.nextS]) =
        some (.mk ⟨"", ""⟩ [⟨"AB", "x"⟩, ⟨"AB", "y"⟩] [] none) :=
  (c6_multivalued_properties.1 ⟨[], some emptyNode, [], some [], ⟨"", ""⟩,
      false, true, [], false⟩ [] emptyNode emptyNode 0 1 2 3 ";" "x" "y"
    rfl rfl rfl rfl (by simp [Node.getAt, emptyNode]))

end SGF
